import Mathlib

/-
  Verification development for the resumable message-framing stream
  (`src/stream.rs` of monoio_direct_io_stream).

  The Rust code is shallowly embedded: the underlying buffered reader is a
  deterministic oracle consisting of the remaining raw bytes, a script of
  responses for successive `read` calls (used to inject not-ready signals,
  I/O errors, and short reads), and a cursor position.  `poll_next` and the
  `read_exact` closure are translated branch by branch from the source,
  including the exact buffer that is captured into the suspension state on a
  not-ready signal (a copy of the slice passed to `read_exact`, which in the
  resume paths is the subslice `buf[read..]`), the `u32` arithmetic of
  `message_length + 4`, and the `u64` arithmetic of `read_bytes`.
  Out-of-bounds slice indexing (`buf[0..4]` on a shorter buffer) is modelled
  by a distinguished `panic` outcome.
-/

namespace DirectIoStream

/-- Error kinds of `std::io::Error`; only `UnexpectedEof` is distinguished
by the code under verification. -/
inductive ErrorKind where
  | unexpectedEof
  | other (code : Nat)
deriving DecidableEq

/-- An I/O error value: a kind plus a message. -/
structure IoError where
  kind : ErrorKind
  msg : String
deriving DecidableEq

/-- The opaque decoded message; per the spec, `Message::from_bytes` is a
pure total function of the payload bytes, so the model retains the bytes. -/
structure Message where
  bytes : List Nat
deriving DecidableEq

/-- `Message::from_bytes`. -/
def Message.from_bytes (l : List Nat) : Message := ⟨l⟩

/-- Modelled from the spec: `dma_buf::val_align_up` is not under `src/`;
§4.2 of the spec fixes it as the standard alignment formula
`((total + sector_size - 1) / sector_size) * sector_size`. -/
def val_align_up (value align : Nat) : Nat :=
  ((value + align - 1) / align) * align

/-- One scripted response of the underlying buffered reader to a `read`
call: signal not-ready, fail with an error, or deliver up to `k` bytes. -/
inductive Resp where
  | pending
  | err (e : IoError)
  | give (k : Nat)
deriving DecidableEq

/-- The underlying buffered reader: remaining bytes, a script of responses
for successive `read` calls (an exhausted script responds greedily, i.e.
delivers as many bytes as requested and available), and the cursor position
(total bytes advanced, whether read or skipped). -/
structure Reader where
  data : List Nat
  script : List Resp
  pos : Nat
deriving DecidableEq

/-- `consume_unpin(k)`: discard `k` bytes without materializing them.  The
cursor advance is capped by the bytes actually available. -/
def Reader.consume (rd : Reader) (k : Nat) : Reader :=
  ⟨rd.data.drop k, rd.script, rd.pos + min k rd.data.length⟩

/-- The phase tag stored in a suspension (`enum Reading`). -/
inductive Reading where
  | length
  | message
deriving DecidableEq

/-- The stream's suspension state (`enum State`): either ready, or a saved
phase, count of bytes valid so far, and buffer contents. -/
inductive State where
  | ready
  | pending (reading : Reading) (read : Nat) (buf : List Nat)
deriving DecidableEq

/-- The `MessageStream` fields, with the reader inlined. -/
structure MessageStream where
  sector_size : Nat
  read_bytes : Nat
  message_length : Nat
  state : State
  reader : Reader
deriving DecidableEq

/-- `MessageStream::new`. -/
def mkStream (data : List Nat) (script : List Resp) (sector : Nat) :
    MessageStream :=
  ⟨sector, 0, 0, .ready, ⟨data, script, 0⟩⟩

/-- Result of the `read_exact` closure: buffer fully filled, suspension
state captured, or an I/O error (the zero-bytes case yields the
`UnexpectedEof` error built at line 93 of the source). -/
inductive ExactRes where
  | ok (buf : List Nat)
  | pending (st : State)
  | ioerr (e : IoError)
deriving DecidableEq

/-- Overwrite `buf[off .. off + bs.length]` with `bs`. -/
def writeAt (buf : List Nat) (off : Nat) (bs : List Nat) : List Nat :=
  buf.take off ++ bs ++ buf.drop (off + bs.length)

/-- The `read_exact` closure, as a function of the response script.  The
loop invariant mirrors the source: while the buffer is not full, request
the remaining bytes; a not-ready response captures the phase, the offset
and a copy of the (whole) buffer passed to the closure; a zero-byte
delivery is turned into the `UnexpectedEof` error; otherwise the delivered
bytes are written at the offset and the loop continues.  An exhausted
script responds greedily: it delivers everything requested if available,
and otherwise delivers what is left, after which the next call delivers
zero bytes — hence the closed-form `[]` case. -/
def read_exact (reading : Reading) (buf : List Nat) (off : Nat)
    (data : List Nat) (pos : Nat) : List Resp → ExactRes × Reader
  | [] =>
    if off < buf.length then
      let n := min (buf.length - off) data.length
      if n = buf.length - off then
        (.ok (writeAt buf off (data.take n)), ⟨data.drop n, [], pos + n⟩)
      else
        (.ioerr ⟨.unexpectedEof, "EOF reached"⟩, ⟨data.drop n, [], pos + n⟩)
    else
      (.ok buf, ⟨data, [], pos⟩)
  | .pending :: rest =>
    if off < buf.length then
      (.pending (State.pending reading off buf), ⟨data, rest, pos⟩)
    else
      (.ok buf, ⟨data, .pending :: rest, pos⟩)
  | .err e :: rest =>
    if off < buf.length then
      (.ioerr e, ⟨data, rest, pos⟩)
    else
      (.ok buf, ⟨data, .err e :: rest, pos⟩)
  | .give k :: rest =>
    if off < buf.length then
      let n := min k (min (buf.length - off) data.length)
      if n = 0 then
        (.ioerr ⟨.unexpectedEof, "EOF reached"⟩, ⟨data.drop n, rest, pos + n⟩)
      else
        read_exact reading (writeAt buf off (data.take n)) (off + n)
          (data.drop n) (pos + n) rest
    else
      (.ok buf, ⟨data, .give k :: rest, pos⟩)

/-- `read_exact` applied to a reader. -/
def readExact (reading : Reading) (buf : List Nat) (rd : Reader) :
    ExactRes × Reader :=
  read_exact reading buf 0 rd.data rd.pos rd.script

/-- Outcome of one `poll_next` call.  `panic` models the out-of-bounds
slice indexing `buf[0..4]` that the source performs at line 116 when the
suspended length-prefix buffer is shorter than 4 bytes. -/
inductive PollOutcome where
  | pending
  | message (m : Message)
  | error (e : IoError)
  | eos
  | panic
deriving DecidableEq

/-- `u32::from_le_bytes`. -/
def u32le (a b c d : Nat) : Nat :=
  a % 256 + 256 * (b % 256) + 65536 * (c % 256) + 16777216 * (d % 256)

/-- Decode the first four bytes of a buffer as a little-endian `u32`
(`u32::from_le_bytes(buf[0..4].try_into().unwrap())`). -/
def decodeLen (buf : List Nat) : Nat :=
  u32le (buf.getD 0 0) (buf.getD 1 0) (buf.getD 2 0) (buf.getD 3 0)

/-- The little-endian 4-byte encoding of a length. -/
def le4 (l : Nat) : List Nat :=
  [l % 256, l / 256 % 256, l / 65536 % 256, l / 16777216 % 256]

/-- The frame-completion block (lines 128–144 / 158–174 / 200–215 of the
source): bump `read_bytes` by `length + 4` in `u64` arithmetic, and when it
reaches `threshold` compute the padding from `(message_length + 4)` in
`u32` arithmetic, skip it, and reset `message_length`.  The three
completion sites differ only in `threshold`. -/
def finishFrame (s : MessageStream) (rd : Reader) (length threshold : Nat)
    (payload : List Nat) : PollOutcome × MessageStream :=
  let rb := (s.read_bytes + length + 4) % 2 ^ 64
  if threshold ≤ rb then
    let total := (length + 4) % 2 ^ 32
    let adjusted := val_align_up total s.sector_size
    let diff := adjusted - total
    (.message (Message.from_bytes payload),
      { s with read_bytes := rb, message_length := 0, state := .ready,
               reader := rd.consume diff })
  else
    (.message (Message.from_bytes payload),
      { s with read_bytes := rb, message_length := length, state := .ready,
               reader := rd })

/-- Allocate the payload buffer, `read_exact` it, and finish the frame
(lines 119–147 / 193–218): used by the fresh path and the resumed-length
path, which differ only in the `read_bytes` threshold they test. -/
def readPayloadAndFinish (s : MessageStream) (rd : Reader)
    (length threshold : Nat) : PollOutcome × MessageStream :=
  match readExact .message (List.replicate length 0) rd with
  | (.ok payload, rd') => finishFrame s rd' length threshold payload
  | (.pending st, rd') =>
    (.pending, { s with message_length := length, state := st, reader := rd' })
  | (.ioerr e, rd') =>
    if e.kind = .unexpectedEof then
      (.eos, { s with message_length := length, state := .ready, reader := rd' })
    else
      (.error e, { s with message_length := length, state := .ready, reader := rd' })

/-- The fresh path of `poll_next` (lines 183–218): read a 4-byte prefix
into a zeroed buffer, decode it, then read the payload and finish. -/
def pollReady (s : MessageStream) : PollOutcome × MessageStream :=
  match readExact .length (List.replicate 4 0) s.reader with
  | (.ok buf, rd') =>
    let length := decodeLen buf
    readPayloadAndFinish { s with message_length := length } rd' length
      ((length + 4) % 2 ^ 32)
  | (.pending st, rd') =>
    (.pending, { s with state := st, reader := rd' })
  | (.ioerr e, rd') =>
    if e.kind = .unexpectedEof then
      (.eos, { s with state := .ready, reader := rd' })
    else
      (.error e, { s with state := .ready, reader := rd' })

/-- The resumed length-prefix path (lines 107–148): `read_exact` is called
on the subslice `buf[read..]`, then the length is decoded from `buf[0..4]`
of the stored buffer — which panics when that buffer is shorter than 4. -/
def pollPendingLength (read : Nat) (buf : List Nat) (s : MessageStream) :
    PollOutcome × MessageStream :=
  match readExact .length (buf.drop read) s.reader with
  | (.ok slice, rd') =>
    let full := buf.take read ++ slice
    if 4 ≤ full.length then
      let length := decodeLen full
      readPayloadAndFinish { s with message_length := length } rd' length length
    else
      (.panic, { s with state := .ready, reader := rd' })
  | (.pending st, rd') =>
    (.pending, { s with state := st, reader := rd' })
  | (.ioerr e, rd') =>
    if e.kind = .unexpectedEof then
      (.eos, { s with state := .ready, reader := rd' })
    else
      (.error e, { s with state := .ready, reader := rd' })

/-- The resumed payload path (lines 149–178): `read_exact` on the subslice
`buf[read..]`, then the whole stored buffer becomes the message bytes. -/
def pollPendingMessage (read : Nat) (buf : List Nat) (s : MessageStream) :
    PollOutcome × MessageStream :=
  match readExact .message (buf.drop read) s.reader with
  | (.ok slice, rd') =>
    finishFrame s rd' s.message_length ((s.message_length + 4) % 2 ^ 32)
      (buf.take read ++ slice)
  | (.pending st, rd') =>
    (.pending, { s with state := st, reader := rd' })
  | (.ioerr e, rd') =>
    if e.kind = .unexpectedEof then
      (.eos, { s with state := .ready, reader := rd' })
    else
      (.error e, { s with state := .ready, reader := rd' })

/-- `Stream::poll_next`: take the suspension state (replacing it with
`Ready`) and dispatch on it. -/
def poll_next (s : MessageStream) : PollOutcome × MessageStream :=
  match s.state with
  | .ready => pollReady { s with state := .ready }
  | .pending .length read buf =>
    pollPendingLength read buf { s with state := .ready }
  | .pending .message read buf =>
    pollPendingMessage read buf { s with state := .ready }

/-- Poll repeatedly while the outcome is `pending`, up to `fuel` polls. -/
def drive : Nat → MessageStream → PollOutcome × MessageStream
  | 0, s => (.pending, s)
  | fuel + 1, s =>
    match poll_next s with
    | (.pending, s') => drive fuel s'
    | r => r

/-- Collect the messages produced by up to `fuel` successive polls,
stopping at the first poll that does not yield a message. -/
def collect : Nat → MessageStream → List Message
  | 0, _ => []
  | fuel + 1, s =>
    match poll_next s with
    | (.message m, s') => m :: collect fuel s'
    | _ => []

/-- Bytes still expected for the buffer the next poll will read: 4 prefix
bytes when ready, the unfilled remainder of the stored buffer when
suspended. -/
def expecting : State → Nat
  | .ready => 4
  | .pending _ read buf => buf.length - read

/-- Encode one message as a frame: little-endian length prefix, payload,
and zero padding up to the next `sector` multiple of the total size. -/
def encodeFrame (sector : Nat) (m : Message) : List Nat :=
  le4 m.bytes.length ++ m.bytes ++
    List.replicate
      (val_align_up (m.bytes.length + 4) sector - (m.bytes.length + 4)) 0

/-- Concatenate the frames of a sequence of messages. -/
def encodeAll (sector : Nat) : List Message → List Nat
  | [] => []
  | m :: ms => encodeFrame sector m ++ encodeAll sector ms

/-- The padding the code actually skips after a frame of payload length
`l`, including the `u32` wrap of `l + 4`. -/
def frameDiff (l sector : Nat) : Nat :=
  val_align_up ((l + 4) % 2 ^ 32) sector - (l + 4) % 2 ^ 32

theorem writeAt_length (buf bs : List Nat) (off : Nat) (h1 : off ≤ buf.length)
    (h2 : bs.length ≤ buf.length - off) :
    (writeAt buf off bs).length = buf.length := by
  simp only [writeAt, List.length_append, List.length_take, List.length_drop]
  omega

theorem read_exact_nil_ok (r : Reading) (buf data : List Nat) (off pos : Nat)
    (h : buf.length - off ≤ data.length) :
    read_exact r buf off data pos [] =
      (.ok (writeAt buf off (data.take (buf.length - off))),
        ⟨data.drop (buf.length - off), [], pos + (buf.length - off)⟩) := by
  by_cases hoff : off < buf.length
  · have hmin : min (buf.length - off) data.length = buf.length - off :=
      Nat.min_eq_left h
    simp [read_exact, hoff, hmin]
  · have h0 : buf.length - off = 0 := by omega
    have hb : buf.length ≤ off := by omega
    simp [read_exact, hoff, h0, writeAt, List.take_of_length_le hb,
      List.drop_eq_nil_of_le hb]

theorem read_exact_nil_eof (r : Reading) (buf data : List Nat) (off pos : Nat)
    (h : data.length < buf.length - off) :
    read_exact r buf off data pos [] =
      (.ioerr ⟨.unexpectedEof, "EOF reached"⟩, ⟨[], [], pos + data.length⟩) := by
  have hoff : off < buf.length := by omega
  have hmin : min (buf.length - off) data.length = data.length :=
    Nat.min_eq_right (by omega)
  have hne : ¬ (data.length = buf.length - off) := by omega
  simp [read_exact, hoff, hmin, hne, List.drop_eq_nil_of_le (le_refl data.length)]

theorem read_exact_pending_step (r : Reading) (buf data : List Nat)
    (off pos : Nat) (rest : List Resp) (h : off < buf.length) :
    read_exact r buf off data pos (.pending :: rest) =
      (.pending (State.pending r off buf), ⟨data, rest, pos⟩) := by
  simp [read_exact, h]

theorem read_exact_err_step (r : Reading) (buf data : List Nat)
    (off pos : Nat) (e : IoError) (rest : List Resp) (h : off < buf.length) :
    read_exact r buf off data pos (.err e :: rest) =
      (.ioerr e, ⟨data, rest, pos⟩) := by
  simp [read_exact, h]

theorem read_exact_give_step (r : Reading) (buf data : List Nat)
    (off pos k : Nat) (rest : List Resp) (h : off < buf.length)
    (hn : 0 < min k (min (buf.length - off) data.length)) :
    read_exact r buf off data pos (.give k :: rest) =
      read_exact r
        (writeAt buf off (data.take (min k (min (buf.length - off) data.length))))
        (off + min k (min (buf.length - off) data.length))
        (data.drop (min k (min (buf.length - off) data.length)))
        (pos + min k (min (buf.length - off) data.length)) rest := by
  have hne : ¬ (min k (min (buf.length - off) data.length) = 0) := by omega
  simp [read_exact, h, hne]

theorem u32le_lt (a b c d : Nat) : u32le a b c d < 2 ^ 32 := by
  have h32 : (2 : Nat) ^ 32 = 4294967296 := by norm_num
  simp only [u32le, h32]
  omega

theorem decodeLen_lt (buf : List Nat) : decodeLen buf < 2 ^ 32 :=
  u32le_lt _ _ _ _

theorem u32le_bytes (a b c d : Nat) (ha : a < 256) (hb : b < 256)
    (hc : c < 256) (hd : d < 256) :
    u32le a b c d = a + 256 * b + 65536 * c + 16777216 * d := by
  simp only [u32le]
  omega

theorem decodeLen_le4 (l : Nat) (h : l < 2 ^ 32) : decodeLen (le4 l) = l := by
  have h32 : (2 : Nat) ^ 32 = 4294967296 := by norm_num
  rw [h32] at h
  simp only [decodeLen, le4, u32le, List.getD_cons_zero, List.getD_cons_succ]
  omega

theorem le4_length (l : Nat) : (le4 l).length = 4 := by
  simp [le4]

theorem le_val_align_up (v s : Nat) (hs : 0 < s) : v ≤ val_align_up v s := by
  unfold val_align_up
  have h2 : (v + s - 1) % s < s := Nat.mod_lt _ hs
  have h1 : s * ((v + s - 1) / s) + (v + s - 1) % s = v + s - 1 :=
    Nat.div_add_mod _ _
  rw [Nat.mul_comm] at h1
  generalize (v + s - 1) / s * s = q at h1 ⊢
  omega

theorem dvd_val_align_up (v s : Nat) : s ∣ val_align_up v s :=
  Dvd.intro ((v + s - 1) / s) (Nat.mul_comm _ _)

theorem read_exact_prefix_greedy (payload rest : List Nat) (pos : Nat) :
    read_exact .length (List.replicate 4 0) 0
      (le4 payload.length ++ payload ++ rest) pos [] =
      (.ok (le4 payload.length), ⟨payload ++ rest, [], pos + 4⟩) := by
  rw [List.append_assoc]
  rw [read_exact_nil_ok .length (List.replicate 4 0)
    (le4 payload.length ++ (payload ++ rest)) 0 pos (by simp [le4])]
  have ht : (le4 payload.length ++ (payload ++ rest)).take 4 = le4 payload.length := by
    rw [List.take_append_of_le_length (by simp [le4])]
    exact List.take_of_length_le (by simp [le4])
  have hd : (le4 payload.length ++ (payload ++ rest)).drop 4 = payload ++ rest := by
    have h := List.drop_left (le4 payload.length) (payload ++ rest)
    rwa [le4_length] at h
  simp [writeAt, ht, hd, le4]

theorem read_exact_payload_greedy (payload rest : List Nat) (pos : Nat) :
    read_exact .message (List.replicate payload.length 0) 0
      (payload ++ rest) pos [] =
      (.ok payload, ⟨rest, [], pos + payload.length⟩) := by
  rw [read_exact_nil_ok .message (List.replicate payload.length 0)
    (payload ++ rest) 0 pos (by simp)]
  simp [writeAt, List.take_left, List.drop_left, List.drop_replicate]

theorem pollReady_frame (sector R ml pos : Nat) (payload rest : List Nat)
    (hL : payload.length < 2 ^ 32) (hR : R + payload.length + 4 < 2 ^ 64) :
    poll_next ⟨sector, R, ml, .ready,
      ⟨le4 payload.length ++ payload ++ rest, [], pos⟩⟩ =
      (.message ⟨payload⟩,
        ⟨sector, R + payload.length + 4, 0, .ready,
          ⟨rest.drop (frameDiff payload.length sector), [],
            pos + 4 + payload.length +
              min (frameDiff payload.length sector) rest.length⟩⟩) := by
  simp only [poll_next, pollReady, readExact]
  rw [read_exact_prefix_greedy payload rest pos]
  simp only [readPayloadAndFinish, readExact, decodeLen_le4 payload.length hL]
  rw [read_exact_payload_greedy payload rest (pos + 4)]
  simp only [finishFrame, Message.from_bytes]
  have hrb : (R + payload.length + 4) % 2 ^ 64 = R + payload.length + 4 :=
    Nat.mod_eq_of_lt hR
  have hth : (payload.length + 4) % 2 ^ 32 ≤ R + payload.length + 4 :=
    le_trans (Nat.mod_le _ _) (by omega)
  simp only [hrb, if_pos hth]
  simp [Reader.consume, frameDiff, Nat.add_assoc]

theorem pollReady_eof_header (sector R ml pos : Nat) (data : List Nat)
    (h : data.length < 4) :
    poll_next ⟨sector, R, ml, .ready, ⟨data, [], pos⟩⟩ =
      (.eos, ⟨sector, R, ml, .ready, ⟨[], [], pos + data.length⟩⟩) := by
  simp only [poll_next, pollReady, readExact]
  rw [read_exact_nil_eof .length (List.replicate 4 0) data 0 pos (by simp; omega)]
  simp

theorem pollReady_eof_payload (sector R ml pos b0 b1 b2 b3 : Nat)
    (rest : List Nat) (h : rest.length < decodeLen [b0, b1, b2, b3]) :
    poll_next ⟨sector, R, ml, .ready, ⟨[b0, b1, b2, b3] ++ rest, [], pos⟩⟩ =
      (.eos, ⟨sector, R, decodeLen [b0, b1, b2, b3], .ready,
        ⟨[], [], pos + 4 + rest.length⟩⟩) := by
  simp only [poll_next, pollReady, readExact]
  rw [read_exact_nil_ok .length (List.replicate 4 0)
    ([b0, b1, b2, b3] ++ rest) 0 pos (by simp)]
  have ht : writeAt (List.replicate 4 0) 0
      (([b0, b1, b2, b3] ++ rest).take ((List.replicate 4 0).length - 0)) =
      [b0, b1, b2, b3] := by
    simp [writeAt, List.take_append_of_le_length]
  rw [ht]
  simp only [readPayloadAndFinish, readExact]
  rw [read_exact_nil_eof .message
    (List.replicate (decodeLen [b0, b1, b2, b3]) 0)
    (([b0, b1, b2, b3] ++ rest).drop ((List.replicate 4 0).length - 0))
    0 (pos + ((List.replicate 4 0).length - 0)) (by simp; omega)]
  simp [Nat.add_assoc]

theorem read_exact_pending_shape (r : Reading) :
    ∀ (script : List Resp) (buf data : List Nat) (off pos : Nat)
      (st : State) (rd : Reader),
      read_exact r buf off data pos script = (.pending st, rd) →
      ∃ off2 buf2, st = State.pending r off2 buf2 ∧ buf2.length = buf.length := by
  intro script
  induction script with
  | nil =>
    intro buf data off pos st rd h
    by_cases hoff : off < buf.length
    · simp only [read_exact, if_pos hoff] at h
      split at h <;> simp at h
    · simp only [read_exact, if_neg hoff] at h
      simp at h
  | cons hd tl ih =>
    intro buf data off pos st rd h
    cases hd with
    | pending =>
      by_cases hoff : off < buf.length
      · rw [read_exact_pending_step r buf data off pos tl hoff] at h
        simp only [Prod.mk.injEq, ExactRes.pending.injEq] at h
        exact ⟨off, buf, h.1.symm, rfl⟩
      · simp only [read_exact, if_neg hoff] at h
        simp at h
    | err e =>
      by_cases hoff : off < buf.length
      · rw [read_exact_err_step r buf data off pos e tl hoff] at h
        simp at h
      · simp only [read_exact, if_neg hoff] at h
        simp at h
    | give k =>
      by_cases hoff : off < buf.length
      · by_cases hn : min k (min (buf.length - off) data.length) = 0
        · simp only [read_exact, if_pos hoff, hn, if_pos rfl] at h
          simp at h
        · rw [read_exact_give_step r buf data off pos k tl hoff (by omega)] at h
          obtain ⟨off2, buf2, h1, h2⟩ := ih _ _ _ _ _ _ h
          refine ⟨off2, buf2, h1, ?_⟩
          rw [h2, writeAt_length]
          · omega
          · simp
      · simp only [read_exact, if_neg hoff] at h
        simp at h

theorem encodeFrame_length (sector : Nat) (m : Message) :
    (encodeFrame sector m).length =
      4 + m.bytes.length +
        (val_align_up (m.bytes.length + 4) sector - (m.bytes.length + 4)) := by
  simp [encodeFrame, le4]
  omega

theorem collect_encodeAll (sector : Nat) :
    ∀ (msgs : List Message) (R ml pos : Nat),
      (∀ m ∈ msgs, m.bytes.length + 4 < 2 ^ 32) →
      R + (encodeAll sector msgs).length < 2 ^ 64 →
      collect (msgs.length + 1)
        ⟨sector, R, ml, .ready, ⟨encodeAll sector msgs, [], pos⟩⟩ = msgs := by
  intro msgs
  induction msgs with
  | nil =>
    intro R ml pos hbound htot
    simp only [encodeAll, List.length_nil, collect]
    rw [pollReady_eof_header sector R ml pos [] (by simp)]
  | cons m ms ih =>
    intro R ml pos hbound htot
    have hL4 : m.bytes.length + 4 < 2 ^ 32 := hbound m (by simp)
    have hpad : encodeAll sector (m :: ms) =
        le4 m.bytes.length ++ m.bytes ++
          (List.replicate
            (val_align_up (m.bytes.length + 4) sector - (m.bytes.length + 4)) 0 ++
            encodeAll sector ms) := by
      show encodeFrame sector m ++ encodeAll sector ms = _
      simp only [encodeFrame, List.append_assoc]
    have hlen : (encodeAll sector (m :: ms)).length =
        (encodeFrame sector m).length + (encodeAll sector ms).length := by
      show (encodeFrame sector m ++ encodeAll sector ms).length = _
      simp
    have hR : R + m.bytes.length + 4 < 2 ^ 64 := by
      rw [hlen, encodeFrame_length] at htot
      omega
    have hdiff : frameDiff m.bytes.length sector =
        val_align_up (m.bytes.length + 4) sector - (m.bytes.length + 4) := by
      unfold frameDiff
      rw [Nat.mod_eq_of_lt hL4]
    have hdrop :
        (List.replicate
            (val_align_up (m.bytes.length + 4) sector - (m.bytes.length + 4)) 0 ++
          encodeAll sector ms).drop (frameDiff m.bytes.length sector) =
        encodeAll sector ms := by
      rw [hdiff]
      have h := List.drop_left
        (List.replicate
          (val_align_up (m.bytes.length + 4) sector - (m.bytes.length + 4)) 0)
        (encodeAll sector ms)
      rwa [List.length_replicate] at h
    have hstep := pollReady_frame sector R ml pos m.bytes
      (List.replicate
        (val_align_up (m.bytes.length + 4) sector - (m.bytes.length + 4)) 0 ++
        encodeAll sector ms) (by omega) hR
    rw [hdrop] at hstep
    rw [hpad]
    rw [show (m :: ms).length + 1 = ms.length + 1 + 1 from by simp]
    rw [collect]
    rw [hstep]
    have htot' : R + m.bytes.length + 4 + (encodeAll sector ms).length < 2 ^ 64 := by
      rw [hlen, encodeFrame_length] at htot
      omega
    show Message.mk m.bytes :: collect (ms.length + 1) _ = m :: ms
    rw [ih (R + m.bytes.length + 4) 0 _ (fun x hx => hbound x (by simp [hx])) htot']

theorem poll_next_starved_eos (s : MessageStream)
    (hscript : s.reader.script = [])
    (hdata : s.reader.data.length < expecting s.state) :
    (poll_next s).1 = .eos := by
  obtain ⟨sec, rb, ml, st, data, script, pos⟩ := s
  simp only at hscript hdata
  subst hscript
  cases st with
  | ready =>
    simp only [expecting] at hdata
    rw [pollReady_eof_header sec rb ml pos data hdata]
  | pending r read buf =>
    simp only [expecting] at hdata
    cases r with
    | length =>
      simp only [poll_next, pollPendingLength, readExact]
      rw [read_exact_nil_eof .length (buf.drop read) data 0 pos (by simp; omega)]
      simp
    | message =>
      simp only [poll_next, pollPendingMessage, readExact]
      rw [read_exact_nil_eof .message (buf.drop read) data 0 pos (by simp; omega)]
      simp

theorem poll_next_error_passthrough (s : MessageStream) (e : IoError)
    (tl : List Resp) (hscript : s.reader.script = .err e :: tl)
    (hkind : e.kind ≠ .unexpectedEof) (hexp : 0 < expecting s.state) :
    (poll_next s).1 = .error e := by
  obtain ⟨sec, rb, ml, st, data, script, pos⟩ := s
  simp only at hscript hexp
  subst hscript
  cases st with
  | ready =>
    simp only [poll_next, pollReady, readExact]
    rw [read_exact_err_step .length (List.replicate 4 0) data 0 pos e tl (by simp)]
    simp [hkind]
  | pending r read buf =>
    simp only [expecting] at hexp
    cases r with
    | length =>
      simp only [poll_next, pollPendingLength, readExact]
      rw [read_exact_err_step .length (buf.drop read) data 0 pos e tl (by simp; omega)]
      simp [hkind]
    | message =>
      simp only [poll_next, pollPendingMessage, readExact]
      rw [read_exact_err_step .message (buf.drop read) data 0 pos e tl (by simp; omega)]
      simp [hkind]

theorem finishFrame_resets (s : MessageStream) (rd : Reader)
    (length threshold : Nat) (payload : List Nat) (m : Message)
    (s' : MessageStream) (hlen : length < 2 ^ 32)
    (hrb : s.read_bytes + 2 ^ 36 < 2 ^ 64)
    (hth : threshold ≤ s.read_bytes + length + 4)
    (h : finishFrame s rd length threshold payload = (.message m, s')) :
    s'.message_length = 0 := by
  simp only [finishFrame] at h
  have hmod : (s.read_bytes + length + 4) % 2 ^ 64 = s.read_bytes + length + 4 :=
    Nat.mod_eq_of_lt (by omega)
  rw [hmod, if_pos hth] at h
  simp only [Prod.mk.injEq] at h
  rw [← h.2]

theorem readPayloadAndFinish_resets (s : MessageStream) (rd : Reader)
    (length threshold : Nat) (m : Message) (s' : MessageStream)
    (hlen : length < 2 ^ 32) (hrb : s.read_bytes + 2 ^ 36 < 2 ^ 64)
    (hth : threshold ≤ s.read_bytes + length + 4)
    (h : readPayloadAndFinish s rd length threshold = (.message m, s')) :
    s'.message_length = 0 := by
  simp only [readPayloadAndFinish] at h
  rcases h1 : readExact .message (List.replicate length 0) rd with ⟨res, rd2⟩
  rw [h1] at h
  cases res with
  | ok payload => exact finishFrame_resets s rd2 length threshold payload m s' hlen hrb hth h
  | pending st => simp at h
  | ioerr e => by_cases he : e.kind = ErrorKind.unexpectedEof <;> simp [he] at h

/-- C1: the code evaluated at the failing input.  The frame
`[1,0,0,0,42]` (length prefix `L = 1`, payload `[42]`, `sector_size = 1`)
delivered in one chunk decodes to the message `[42]`; the same frame
delivered with a not-ready signal after 2 prefix bytes and a second
not-ready signal on the resumed poll makes the third poll panic (the
suspension state captured the 2-byte remainder slice instead of the full
4-byte prefix buffer, so the already-received bytes are lost and
`buf[0..4]` is out of bounds), instead of producing the same message. -/
theorem C1_resumption_code_bug :
    (drive 3 (mkStream [1, 0, 0, 0, 42] [.give 2, .pending, .pending] 1)).1 =
      .panic ∧
    (poll_next (mkStream [1, 0, 0, 0, 42] [] 1)).1 = .message ⟨[42]⟩ := by
  decide

/-- C2: for every stream state — ready, suspended mid length-prefix at any
offset, or suspended mid-payload at any offset — if the underlying reader
(with no pending/error responses scripted) holds fewer bytes than the
current buffer still expects, so that it returns zero bytes while at least
one more byte is expected, `poll_next` returns end-of-sequence, never an
error item. -/
theorem C2_zero_read_is_end_of_stream (s : MessageStream)
    (hscript : s.reader.script = [])
    (hdata : s.reader.data.length < expecting s.state) :
    (poll_next s).1 = .eos :=
  poll_next_starved_eos s hscript hdata

/-- C2 witness: a stream holding only 2 of the 4 length-prefix bytes ends
cleanly. -/
theorem C2_witness : (poll_next (mkStream [7, 7] [] 512)).1 = .eos :=
  C2_zero_read_is_end_of_stream (mkStream [7, 7] [] 512) rfl (by decide)

/-- C5 counterexample: an underlying reader error of kind `UnexpectedEof`
is not surfaced as an error item — `poll_next` reclassifies it as clean
end-of-sequence, so not every reader error is surfaced unchanged. -/
theorem C5_counterexample :
    (poll_next (mkStream [] [.err ⟨.unexpectedEof, "device error"⟩] 512)).1 =
      .eos ∧
    (poll_next (mkStream [] [.err ⟨.unexpectedEof, "device error"⟩] 512)).1 ≠
      .error ⟨.unexpectedEof, "device error"⟩ := by
  decide

/-- C5 amended: every error the underlying reader returns whose kind is
not `UnexpectedEof` is surfaced unchanged as an error item, in every
stream state in which at least one more byte is expected; an error of kind
`UnexpectedEof` is instead treated as clean end-of-stream. -/
theorem C5_error_surfaced_verbatim (s : MessageStream) (e : IoError)
    (tl : List Resp) (hscript : s.reader.script = .err e :: tl)
    (hkind : e.kind ≠ .unexpectedEof) (hexp : 0 < expecting s.state) :
    (poll_next s).1 = .error e :=
  poll_next_error_passthrough s e tl hscript hkind hexp

/-- C5 witness: a `PermissionDenied`-style error surfaces verbatim. -/
theorem C5_witness :
    (poll_next (mkStream [] [.err ⟨.other 5, "disk fault"⟩] 512)).1 =
      .error ⟨.other 5, "disk fault"⟩ :=
  C5_error_surfaced_verbatim (mkStream [] [.err ⟨.other 5, "disk fault"⟩] 512)
    ⟨.other 5, "disk fault"⟩ [] rfl (by decide) (by decide)

/-- C6 counterexample: after a suspension 2 bytes into the length prefix
and a second not-ready signal on the resumed poll, the stream's suspension
state holds a `Reading::Length` buffer of length 2 (not at least 4), and
the next poll panics on the `buf[0..4]` indexing. -/
theorem C6_counterexample :
    ((poll_next (poll_next
        (mkStream [1, 0, 0, 0, 42] [.give 2, .pending, .pending] 1)).2).2).state =
      State.pending .length 0 [0, 0] ∧
    (poll_next ((poll_next (poll_next
        (mkStream [1, 0, 0, 0, 42] [.give 2, .pending, .pending] 1)).2).2)).1 =
      .panic := by
  decide

/-- C6 amended: a suspension taken from a poll that starts in the `Ready`
state does store a length-phase buffer of length exactly 4, so the
`buf[0..4]` indexing is in bounds on the first resumption; only a further
suspension during a resumed partial length read stores a shorter buffer
(the remainder slice), after which the indexing is out of bounds. -/
theorem C6_fresh_suspension_buffer_length (s s' : MessageStream) (off : Nat)
    (buf : List Nat) (hready : s.state = .ready)
    (hp : poll_next s = (.pending, s'))
    (hst : s'.state = .pending .length off buf) :
    buf.length = 4 := by
  obtain ⟨sec, rb, ml, st, rd⟩ := s
  simp only at hready
  subst hready
  simp only [poll_next, pollReady, readExact] at hp
  rcases h1 : read_exact .length (List.replicate 4 0) 0 rd.data rd.pos rd.script
    with ⟨res, rd'⟩
  rw [h1] at hp
  cases res with
  | ok buf4 =>
    simp only [readPayloadAndFinish, readExact] at hp
    rcases h2 : read_exact .message (List.replicate (decodeLen buf4) 0) 0
        rd'.data rd'.pos rd'.script with ⟨res2, rd2⟩
    rw [h2] at hp
    cases res2 with
    | ok payload =>
      simp only [finishFrame] at hp
      split at hp <;> simp at hp
    | pending st2 =>
      obtain ⟨o2, b2, hshape, -⟩ :=
        read_exact_pending_shape .message _ _ _ _ _ _ _ h2
      simp only [Prod.mk.injEq] at hp
      rw [← hp.2] at hst
      simp only at hst
      rw [hst] at hshape
      simp at hshape
    | ioerr e => by_cases he : e.kind = ErrorKind.unexpectedEof <;> simp [he] at hp
  | pending st2 =>
    obtain ⟨o2, b2, hshape, hlen2⟩ :=
      read_exact_pending_shape .length _ _ _ _ _ _ _ h1
    simp only [Prod.mk.injEq] at hp
    rw [← hp.2] at hst
    simp only at hst
    rw [hst] at hshape
    simp only [State.pending.injEq] at hshape
    rw [List.length_replicate] at hlen2
    rw [← hshape.2.2] at hlen2
    exact hlen2
  | ioerr e => by_cases he : e.kind = ErrorKind.unexpectedEof <;> simp [he] at hp

/-- C6 witness: the first suspension (2 bytes into the prefix) stores the
full 4-byte buffer. -/
theorem C6_witness : ([1, 0, 0, 0] : List Nat).length = 4 :=
  C6_fresh_suspension_buffer_length
    (mkStream [1, 0, 0, 0, 42] [.give 2, .pending] 1)
    ⟨1, 0, 0, State.pending .length 2 [1, 0, 0, 0], ⟨[0, 0, 42], [], 2⟩⟩
    2 [1, 0, 0, 0] rfl (by decide) rfl

/-- C8: whenever `poll_next` yields a Message — through the fresh-frame
path, the resumed-from-length path, or the resumed-from-payload path — the
resulting stream has `message_length = 0`: the reset after the padding
skip fires on every completion path (the guard `read_bytes >= ...` always
holds when `read_bytes` has not wrapped around `u64`, which the two
hypotheses express: the stored `message_length` is a `u32` value and
`read_bytes` is far from `2^64`). -/
theorem C8_message_length_reset (s : MessageStream) (m : Message)
    (s' : MessageStream) (hml : s.message_length < 2 ^ 32)
    (hrb : s.read_bytes + 2 ^ 36 < 2 ^ 64)
    (h : poll_next s = (.message m, s')) :
    s'.message_length = 0 := by
  obtain ⟨sec, rb, ml, st, rd⟩ := s
  simp only at hml hrb
  cases st with
  | ready =>
    simp only [poll_next, pollReady] at h
    rcases h1 : readExact .length (List.replicate 4 0) rd with ⟨res, rd'⟩
    rw [h1] at h
    cases res with
    | ok buf =>
      refine readPayloadAndFinish_resets _ rd' (decodeLen buf) _ m s'
        (decodeLen_lt buf) ?_ ?_ h
      · simpa using hrb
      · exact le_trans (Nat.mod_le _ _) (by simp)
    | pending st2 => simp at h
    | ioerr e => by_cases he : e.kind = ErrorKind.unexpectedEof <;> simp [he] at h
  | pending r read buf =>
    cases r with
    | length =>
      simp only [poll_next, pollPendingLength] at h
      rcases h1 : readExact .length (buf.drop read) rd with ⟨res, rd'⟩
      rw [h1] at h
      cases res with
      | ok slice =>
        dsimp only at h
        by_cases h4 : 4 ≤ (buf.take read ++ slice).length
        · rw [if_pos h4] at h
          refine readPayloadAndFinish_resets _ rd'
            (decodeLen (buf.take read ++ slice)) _ m s'
            (decodeLen_lt _) ?_ ?_ h
          · simpa using hrb
          · simp
            omega
        · rw [if_neg h4] at h
          simp at h
      | pending st2 => simp at h
      | ioerr e => by_cases he : e.kind = ErrorKind.unexpectedEof <;> simp [he] at h
    | message =>
      simp only [poll_next, pollPendingMessage] at h
      rcases h1 : readExact .message (buf.drop read) rd with ⟨res, rd'⟩
      rw [h1] at h
      cases res with
      | ok slice =>
        refine finishFrame_resets _ rd' ml _ (buf.take read ++ slice) m s'
          hml (by simpa using hrb) (le_trans (Nat.mod_le _ _) (by simp)) h
      | pending st2 => simp at h
      | ioerr e => by_cases he : e.kind = ErrorKind.unexpectedEof <;> simp [he] at h

/-- C8 witness: a zero-length frame at sector size 4 yields a message and
leaves `message_length = 0`. -/
theorem C8_witness :
    (poll_next (mkStream [0, 0, 0, 0] [] 4)).2.message_length = 0 :=
  C8_message_length_reset (mkStream [0, 0, 0, 0] [] 4) ⟨[]⟩
    (poll_next (mkStream [0, 0, 0, 0] [] 4)).2 (by decide) (by decide)
    (by decide)

theorem read_exact_done (r : Reading) (buf data : List Nat) (off pos : Nat)
    (script : List Resp) (h : ¬ off < buf.length) :
    read_exact r buf off data pos script = (.ok buf, ⟨data, script, pos⟩) := by
  cases script with
  | nil => simp [read_exact, h]
  | cons hd tl => cases hd <;> simp [read_exact, h]

theorem read_exact_prefix_give4 (b0 b1 b2 b3 : Nat) (rest : List Nat)
    (pos : Nat) (tl : List Resp) :
    read_exact .length (List.replicate 4 0) 0 ([b0, b1, b2, b3] ++ rest) pos
      (.give 4 :: tl) = (.ok [b0, b1, b2, b3], ⟨rest, tl, pos + 4⟩) := by
  have hmin : min 4 (min ((List.replicate 4 0).length - 0)
      (([b0, b1, b2, b3] ++ rest).length)) = 4 := by
    simp
  rw [read_exact_give_step .length (List.replicate 4 0)
    ([b0, b1, b2, b3] ++ rest) 0 pos 4 tl (by simp) (by rw [hmin]; omega)]
  rw [hmin]
  have htake : ([b0, b1, b2, b3] ++ rest).take 4 = [b0, b1, b2, b3] := by
    simp [List.take_append_of_le_length]
  have hdrop : ([b0, b1, b2, b3] ++ rest).drop 4 = rest := by
    have h := List.drop_left [b0, b1, b2, b3] rest
    exact h
  rw [htake, hdrop]
  have hw : writeAt (List.replicate 4 0) 0 [b0, b1, b2, b3] = [b0, b1, b2, b3] := by
    simp [writeAt]
  rw [hw]
  rw [read_exact_done .length [b0, b1, b2, b3] rest (0 + 4) (pos + 4) tl (by simp)]

/-- C9: a 4-byte prefix `b0 b1 b2 b3` read at the start of a frame is
decoded as the little-endian 32-bit integer
`b0 + 256*b1 + 65536*b2 + 16777216*b3` and stored in `message_length`
before the payload read begins: injecting a not-ready signal right after
the 4 prefix bytes shows the stream suspended at payload offset 0 with
`message_length` already holding the decoded value. -/
theorem C9_little_endian_decode (b0 b1 b2 b3 : Nat) (rest : List Nat)
    (sector R ml pos : Nat) (h0 : b0 < 256) (h1 : b1 < 256) (h2 : b2 < 256)
    (h3 : b3 < 256)
    (hpos : 0 < b0 + 256 * b1 + 65536 * b2 + 16777216 * b3) :
    poll_next ⟨sector, R, ml, .ready,
        ⟨[b0, b1, b2, b3] ++ rest, [.give 4, .pending], pos⟩⟩ =
      (.pending,
        ⟨sector, R, b0 + 256 * b1 + 65536 * b2 + 16777216 * b3,
          .pending .message 0
            (List.replicate (b0 + 256 * b1 + 65536 * b2 + 16777216 * b3) 0),
          ⟨rest, [], pos + 4⟩⟩) := by
  simp only [poll_next, pollReady, readExact]
  rw [read_exact_prefix_give4 b0 b1 b2 b3 rest pos [.pending]]
  have hdec : decodeLen [b0, b1, b2, b3] =
      b0 + 256 * b1 + 65536 * b2 + 16777216 * b3 := by
    simp only [decodeLen, List.getD_cons_zero, List.getD_cons_succ]
    exact u32le_bytes b0 b1 b2 b3 h0 h1 h2 h3
  simp only [readPayloadAndFinish, readExact, hdec]
  rw [read_exact_pending_step .message
    (List.replicate (b0 + 256 * b1 + 65536 * b2 + 16777216 * b3) 0) rest 0
    (pos + 4) [] (by simpa using hpos)]

/-- C9 witness: prefix `[10,0,0,0]` stores `message_length = 10` before
the payload read begins. -/
theorem C9_witness :
    (poll_next ⟨512, 0, 0, .ready,
        ⟨[10, 0, 0, 0], [.give 4, .pending], 0⟩⟩).2.message_length =
      10 + 256 * 0 + 65536 * 0 + 16777216 * 0 := by
  have h := C9_little_endian_decode 10 0 0 0 [] 512 0 0 0 (by decide)
    (by decide) (by decide) (by decide) (by decide)
  rw [show ([10, 0, 0, 0] : List Nat) = [10, 0, 0, 0] ++ [] from by simp, h]

/-- C7: a frame whose length prefix decodes to `L = 0` yields exactly one
Message built from the empty payload; the padding is still computed as
`round_up_to_multiple(4, sector_size) - 4` and skipped, so the reader ends
at cursor position `val_align_up 4 sector`. -/
theorem C7_zero_length_payload (sector : Nat) (rest : List Nat)
    (hs : 0 < sector) :
    poll_next (mkStream ([0, 0, 0, 0] ++
        (List.replicate (val_align_up 4 sector - 4) 0 ++ rest)) [] sector) =
      (.message ⟨[]⟩,
        ⟨sector, 4, 0, .ready, ⟨rest, [], val_align_up 4 sector⟩⟩) := by
  have hdata : [0, 0, 0, 0] ++ (List.replicate (val_align_up 4 sector - 4) 0 ++ rest)
      = le4 (List.length ([] : List Nat)) ++ ([] : List Nat) ++
          (List.replicate (val_align_up 4 sector - 4) 0 ++ rest) := by
    simp [le4]
  rw [mkStream, hdata]
  rw [pollReady_frame sector 0 0 0 []
    (List.replicate (val_align_up 4 sector - 4) 0 ++ rest) (by simp) (by simp)]
  have hdiff : frameDiff (List.length ([] : List Nat)) sector =
      val_align_up 4 sector - 4 := by
    have h4 : (0 + 4) % 2 ^ 32 = 4 := by norm_num
    simp only [frameDiff, List.length_nil, h4]
  have h4a : 4 ≤ val_align_up 4 sector := le_val_align_up 4 sector hs
  have hdrop : (List.replicate (val_align_up 4 sector - 4) 0 ++ rest).drop
      (frameDiff (List.length ([] : List Nat)) sector) = rest := by
    rw [hdiff]
    have h := List.drop_left (List.replicate (val_align_up 4 sector - 4) 0) rest
    rwa [List.length_replicate] at h
  have hmin : min (frameDiff (List.length ([] : List Nat)) sector)
      (List.replicate (val_align_up 4 sector - 4) 0 ++ rest).length =
      val_align_up 4 sector - 4 := by
    rw [hdiff]
    simp
  rw [hdrop, hmin]
  have hpos : 0 + 4 + List.length ([] : List Nat) + (val_align_up 4 sector - 4) =
      val_align_up 4 sector := by
    simp only [List.length_nil]
    omega
  rw [hpos]
  norm_num

/-- C7 witness: sector 8, no trailing data: one empty message, 4 padding
bytes skipped, cursor at 8. -/
theorem C7_witness :
    poll_next (mkStream [0, 0, 0, 0, 0, 0, 0, 0] [] 8) =
      (.message ⟨[]⟩, ⟨8, 4, 0, .ready, ⟨[], [], 8⟩⟩) := by
  have h := C7_zero_length_payload 8 [] (by decide)
  have he : val_align_up 4 8 = 8 := by norm_num [val_align_up]
  rw [he] at h
  simpa using h

/-- C3 counterexample: for `L = 2^32 - 1` (a representable `u32` payload
length) and `sector_size = 3`, the frame is fully consumed (a Message is
yielded and the padding-skip step runs), but the `u32` wrap in
`message_length + 4` makes the code skip 0 padding bytes, leaving the
reader's cursor at `2^32 + 3`, which is not a multiple of 3. -/
theorem C3_counterexample :
    (poll_next (mkStream (le4 (2 ^ 32 - 1) ++ List.replicate (2 ^ 32 - 1) 0 ++
        [7, 7]) [] 3)).1 = .message ⟨List.replicate (2 ^ 32 - 1) 0⟩ ∧
    ¬ (3 ∣ (poll_next (mkStream (le4 (2 ^ 32 - 1) ++
        List.replicate (2 ^ 32 - 1) 0 ++ [7, 7]) [] 3)).2.reader.pos) := by
  have h := pollReady_frame 3 0 0 0 (List.replicate (2 ^ 32 - 1) 0) [7, 7]
    (by rw [List.length_replicate]; norm_num)
    (by rw [List.length_replicate]; norm_num)
  simp only [List.length_replicate] at h
  have hdiff : frameDiff (2 ^ 32 - 1) 3 = 0 := by
    have hm : (2 ^ 32 - 1 + 4) % 2 ^ 32 = 3 := by norm_num
    simp only [frameDiff, hm]
    norm_num [val_align_up]
  rw [hdiff] at h
  rw [mkStream, h]
  constructor
  · rfl
  · show ¬ (3 ∣ 0 + 4 + (2 ^ 32 - 1) + min 0 ([7, 7] : List Nat).length)
    norm_num

/-- C3 amended: for payload lengths `L` with `L + 4 < 2^32` (no `u32`
wrap) and any `sector_size > 0`, after `poll_next` consumes one full frame
from its start the reader's cursor position is `val_align_up (L+4) sector`
— a multiple of `sector_size` — and the frame's Message is yielded. -/
theorem C3_alignment_invariant (sector : Nat) (payload rest : List Nat)
    (hs : 0 < sector) (hL : payload.length + 4 < 2 ^ 32) :
    (poll_next (mkStream (le4 payload.length ++ payload ++
        (List.replicate (val_align_up (payload.length + 4) sector -
          (payload.length + 4)) 0 ++ rest)) [] sector)).1 =
      .message ⟨payload⟩ ∧
    sector ∣ (poll_next (mkStream (le4 payload.length ++ payload ++
        (List.replicate (val_align_up (payload.length + 4) sector -
          (payload.length + 4)) 0 ++ rest)) [] sector)).2.reader.pos := by
  rw [mkStream]
  rw [pollReady_frame sector 0 0 0 payload
    (List.replicate (val_align_up (payload.length + 4) sector -
      (payload.length + 4)) 0 ++ rest) (by omega) (by omega)]
  have hdiff : frameDiff payload.length sector =
      val_align_up (payload.length + 4) sector - (payload.length + 4) := by
    unfold frameDiff
    rw [Nat.mod_eq_of_lt hL]
  have hup : payload.length + 4 ≤ val_align_up (payload.length + 4) sector :=
    le_val_align_up _ _ hs
  refine ⟨rfl, ?_⟩
  show sector ∣ 0 + 4 + payload.length + min (frameDiff payload.length sector) _
  have hmin : min (frameDiff payload.length sector)
      (List.replicate (val_align_up (payload.length + 4) sector -
        (payload.length + 4)) 0 ++ rest).length =
      val_align_up (payload.length + 4) sector - (payload.length + 4) := by
    rw [hdiff]
    simp
  rw [hmin]
  have hpos : 0 + 4 + payload.length +
      (val_align_up (payload.length + 4) sector - (payload.length + 4)) =
      val_align_up (payload.length + 4) sector := by
    omega
  rw [hpos]
  exact dvd_val_align_up _ _

/-- C3 witness: sector 4, payload `[1,2]`: cursor ends at 8, a multiple
of 4. -/
theorem C3_witness :
    (poll_next (mkStream [2, 0, 0, 0, 1, 2, 0, 0] [] 4)).1 =
      .message ⟨[1, 2]⟩ ∧
    4 ∣ (poll_next (mkStream [2, 0, 0, 0, 1, 2, 0, 0] [] 4)).2.reader.pos := by
  have h := C3_alignment_invariant 4 [1, 2] [] (by decide) (by decide)
  have he : [2, 0, 0, 0, 1, 2, 0, 0] = le4 ([1, 2] : List Nat).length ++
      [1, 2] ++ (List.replicate (val_align_up (([1, 2] : List Nat).length + 4) 4 -
        (([1, 2] : List Nat).length + 4)) 0 ++ []) := by
    norm_num [le4, val_align_up]
    rfl
  rw [he]
  exact h

/-- C10 counterexample: for the decoded length `L = 2^32 - 1` (the
maximum `u32`) and `sector_size = 3`, `message_length + 4` wraps to 3 in
`u32` arithmetic, so the code skips `val_align_up 3 3 - 3 = 0` bytes and
the trailing data `[5,5,5]` is left untouched, although
`round_up_to_multiple(L+4, 3) - (L+4) = 2` bytes of padding should have
been skipped per the claim. -/
theorem C10_counterexample :
    (poll_next (mkStream (le4 (2 ^ 32 - 1) ++ List.replicate (2 ^ 32 - 1) 0 ++
        [5, 5, 5]) [] 3)).2.reader.data = [5, 5, 5] ∧
    val_align_up ((2 ^ 32 - 1) + 4) 3 - ((2 ^ 32 - 1) + 4) = 2 := by
  have h := pollReady_frame 3 0 0 0 (List.replicate (2 ^ 32 - 1) 0) [5, 5, 5]
    (by rw [List.length_replicate]; norm_num)
    (by rw [List.length_replicate]; norm_num)
  simp only [List.length_replicate] at h
  have hdiff : frameDiff (2 ^ 32 - 1) 3 = 0 := by
    have hm : (2 ^ 32 - 1 + 4) % 2 ^ 32 = 3 := by norm_num
    simp only [frameDiff, hm]
    norm_num [val_align_up]
  rw [hdiff] at h
  rw [mkStream, h]
  constructor
  · rfl
  · norm_num [val_align_up]

/-- C10 amended: for all decoded payload lengths `L` with `L + 4 < 2^32`
the `u32` addition `message_length + 4` does not wrap, and the padding the
code skips after the frame equals
`round_up_to_multiple(L+4, sector) - (L+4)`: the reader's cursor ends
exactly that many bytes past the payload. -/
theorem C10_padding_exact_without_wrap (sector R ml pos : Nat)
    (payload rest : List Nat) (hL : payload.length + 4 < 2 ^ 32)
    (hR : R + payload.length + 4 < 2 ^ 64)
    (hrest : val_align_up (payload.length + 4) sector - (payload.length + 4) ≤
      rest.length) :
    (poll_next ⟨sector, R, ml, .ready,
        ⟨le4 payload.length ++ payload ++ rest, [], pos⟩⟩).2.reader.pos =
      pos + 4 + payload.length +
        (val_align_up (payload.length + 4) sector - (payload.length + 4)) := by
  rw [pollReady_frame sector R ml pos payload rest (by omega) hR]
  have hdiff : frameDiff payload.length sector =
      val_align_up (payload.length + 4) sector - (payload.length + 4) := by
    unfold frameDiff
    rw [Nat.mod_eq_of_lt hL]
  show pos + 4 + payload.length + min (frameDiff payload.length sector) rest.length = _
  rw [hdiff, Nat.min_eq_left hrest]

/-- C10 witness: `L = 1`, sector 8: the cursor ends at `4 + 1 + 3 = 8`,
skipping exactly `val_align_up 5 8 - 5 = 3` padding bytes. -/
theorem C10_witness :
    (poll_next ⟨8, 0, 0, .ready,
        ⟨le4 ([1] : List Nat).length ++ [1] ++ [0, 0, 0], [], 0⟩⟩).2.reader.pos =
      0 + 4 + ([1] : List Nat).length +
        (val_align_up (([1] : List Nat).length + 4) 8 -
          (([1] : List Nat).length + 4)) :=
  C10_padding_exact_without_wrap 8 0 0 0 [1] [0, 0, 0] (by norm_num)
    (by norm_num) (by norm_num [val_align_up])

/-- C4 counterexample: the sequence of two messages
`[replicate (2^32-4) 0, [9]]` at `sector_size = 3` encodes to frames with
2 and 1 padding bytes; decoding yields only the first message: the `u32`
wrap of `message_length + 4` makes the decoder skip 0 instead of 2 padding
bytes after the first frame, so the second frame is misparsed (its prefix
is read from the padding) and the stream ends early. -/
theorem C4_counterexample :
    collect 3 (mkStream
        (encodeAll 3 [⟨List.replicate (2 ^ 32 - 4) 0⟩, ⟨[9]⟩]) [] 3) ≠
      [⟨List.replicate (2 ^ 32 - 4) 0⟩, ⟨[9]⟩] := by
  have hF2 : encodeFrame 3 ⟨[9]⟩ = [1, 0, 0, 0, 9, 0] := by decide
  have hF1 : encodeFrame 3 ⟨List.replicate (2 ^ 32 - 4) 0⟩ =
      le4 (2 ^ 32 - 4) ++ List.replicate (2 ^ 32 - 4) 0 ++
        List.replicate 2 0 := by
    unfold encodeFrame
    rw [show (Message.mk (List.replicate (2 ^ 32 - 4) 0)).bytes =
      List.replicate (2 ^ 32 - 4) 0 from rfl]
    rw [List.length_replicate]
    rw [show val_align_up (2 ^ 32 - 4 + 4) 3 - (2 ^ 32 - 4 + 4) = 2 from by
      norm_num [val_align_up]]
  have henc : encodeAll 3 [⟨List.replicate (2 ^ 32 - 4) 0⟩, ⟨[9]⟩] =
      le4 (2 ^ 32 - 4) ++ List.replicate (2 ^ 32 - 4) 0 ++
        (List.replicate 2 0 ++ ([1, 0, 0, 0, 9, 0] ++ [])) := by
    show encodeFrame 3 ⟨List.replicate (2 ^ 32 - 4) 0⟩ ++
      (encodeFrame 3 ⟨[9]⟩ ++ []) = _
    rw [hF1, hF2, List.append_assoc]
  have h1 := pollReady_frame 3 0 0 0 (List.replicate (2 ^ 32 - 4) 0)
    (List.replicate 2 0 ++ ([1, 0, 0, 0, 9, 0] ++ []))
    (by rw [List.length_replicate]; norm_num)
    (by rw [List.length_replicate]; norm_num)
  simp only [List.length_replicate] at h1
  have hdiff : frameDiff (2 ^ 32 - 4) 3 = 0 := by
    have hm : (2 ^ 32 - 4 + 4) % 2 ^ 32 = 0 := by norm_num
    simp only [frameDiff, hm]
    norm_num [val_align_up]
  rw [hdiff] at h1
  have hsplit : ((List.replicate 2 0 ++ ([1, 0, 0, 0, 9, 0] ++ [])) :
      List Nat).drop 0 = [0, 0, 1, 0] ++ [0, 0, 9, 0] := by decide
  rw [hsplit] at h1
  have h2 := pollReady_eof_payload 3 (0 + (2 ^ 32 - 4) + 4) 0
    (0 + 4 + (2 ^ 32 - 4) +
      min 0 (List.replicate 2 0 ++ ([1, 0, 0, 0, 9, 0] ++ []) : List Nat).length)
    0 0 1 0 [0, 0, 9, 0] (by norm_num [decodeLen, u32le])
  have hcol : collect (2 + 1) (mkStream
      (encodeAll 3 [⟨List.replicate (2 ^ 32 - 4) 0⟩, ⟨[9]⟩]) [] 3) =
      [⟨List.replicate (2 ^ 32 - 4) 0⟩] := by
    rw [mkStream, henc]
    rw [collect, h1]
    show Message.mk (List.replicate (2 ^ 32 - 4) 0) :: collect (1 + 1) _ = _
    rw [collect, h2]
  have hcol3 : collect 3 (mkStream
      (encodeAll 3 [⟨List.replicate (2 ^ 32 - 4) 0⟩, ⟨[9]⟩]) [] 3) =
      [⟨List.replicate (2 ^ 32 - 4) 0⟩] := hcol
  intro hcontra
  rw [hcol3] at hcontra
  have hlen := congrArg List.length hcontra
  simp only [List.length_cons, List.length_nil] at hlen
  omega

/-- C4 amended: for every sequence of messages whose payload lengths `L`
satisfy `L + 4 < 2^32` (so the padding arithmetic does not wrap) and whose
total encoded size stays below `2^64`, encoding each message as a frame
(length prefix, payload, zero padding to the next `sector` multiple) and
decoding the concatenation yields exactly that sequence, in order, with a
clean end after the last message. -/
theorem C4_round_trip (msgs : List Message) (sector : Nat) (_hs : 0 < sector)
    (hb : ∀ m ∈ msgs, m.bytes.length + 4 < 2 ^ 32)
    (ht : (encodeAll sector msgs).length < 2 ^ 64) :
    collect (msgs.length + 1) (mkStream (encodeAll sector msgs) [] sector) =
      msgs :=
  collect_encodeAll sector msgs 0 0 0 hb (by omega)

/-- C4 witness: two small messages at sector 4 round-trip. -/
theorem C4_witness :
    collect 3 (mkStream (encodeAll 4 [⟨[1, 2, 3]⟩, ⟨[]⟩]) [] 4) =
      [⟨[1, 2, 3]⟩, ⟨[]⟩] :=
  C4_round_trip [⟨[1, 2, 3]⟩, ⟨[]⟩] 4 (by decide) (by decide) (by decide)

end DirectIoStream
